import Mathlib

/-!
Shallow embedding of `src/cura_profile_builder.py` (Cura Profile Builder
v1.0.0).  Python values are modelled by `PyVal`: arbitrary-precision ints as
`Int`, floats exactly as rationals (`Rat`; the program only compares and
prints them, it performs no float arithmetic whose rounding could be
observed), strings as `String`, booleans as `Bool`.  Python dicts are
modelled as insertion-ordered association lists, matching CPython's
guaranteed dict ordering; `dictInsert` keeps the position of an existing
key and appends a fresh one, exactly like dict assignment.
-/

namespace CuraProfileBuilder

/-- Model of a Python value as it occurs in the settings dictionaries of
the program. -/
inductive PyVal where
  | int : Int → PyVal
  | float : Rat → PyVal
  | str : String → PyVal
  | bool : Bool → PyVal
deriving DecidableEq, Repr

/-- Python truthiness (`bool(v)`): nonzero numbers, nonempty strings and
`True` are truthy. -/
def py_truthy : PyVal → Bool
  | .int n => n != 0
  | .float q => q != 0
  | .str s => s != ""
  | .bool b => b

/-- Model of Python `str.lower()` (ASCII case folding suffices for the
setting keys and literals the program handles). -/
def lowerStr (s : String) : String :=
  String.mk (s.data.map Char.toLower)

/-- Iterative core of the model of Python `str.replace`: the fuel is the
length of the scanned list, which bounds the number of steps. -/
def replaceFuel (pat rep : List Char) : Nat → List Char → List Char
  | 0, cs => cs
  | _ + 1, [] => []
  | n + 1, c :: cs =>
    if pat ≠ [] ∧ pat.isPrefixOf (c :: cs) then
      rep ++ replaceFuel pat rep n (List.drop pat.length (c :: cs))
    else
      c :: replaceFuel pat rep n cs

/-- Model of Python `str.replace(pat, rep)` (non-overlapping left-to-right
replacement). -/
def pyReplace (s pat rep : String) : String :=
  String.mk (replaceFuel pat.data rep.data s.data.length s.data)

/-- Model of Python `str(f)` for a float: decimal rendering when the
denominator divides a power of ten (always the case for values written in
the program's decimal inputs), with the `.0` that Python prints for whole
floats.  The fraction fallback is unreachable for such values. -/
def py_str_float (q : Rat) : String :=
  let sign := if q.num < 0 then "-" else ""
  let n := q.num.natAbs
  let d := q.den
  match (List.range 41).find? (fun k => 10 ^ k % d == 0) with
  | some k =>
    if k = 0 then sign ++ toString n ++ ".0"
    else
      let scaled := n * 10 ^ k / d
      let ip := scaled / 10 ^ k
      let fr := scaled % 10 ^ k
      let frStr := toString fr
      let padded := String.mk (List.replicate (k - frStr.length) '0') ++ frStr
      let trimmed := String.mk ((padded.data.reverse.dropWhile (fun c => c == '0')).reverse)
      sign ++ toString ip ++ "." ++ (if trimmed = "" then "0" else trimmed)
  | none => sign ++ toString n ++ "/" ++ toString d

/-- Model of Python `str(v)` / f-string interpolation of a value. -/
def py_str : PyVal → String
  | .int n => toString n
  | .float q => py_str_float q
  | .str s => s
  | .bool b => if b then "True" else "False"

/-- Rendering of a numeric schema bound in an f-string: JSON integers
(denominator 1) print as ints, other numbers as floats. -/
def py_num_repr (q : Rat) : String :=
  if q.den = 1 then toString q.num else py_str_float q

/-- Python dict lookup on an insertion-ordered association list. -/
def dictGet? {κ α : Type} [DecidableEq κ] : List (κ × α) → κ → Option α
  | [], _ => none
  | kv :: rest, k => if kv.1 = k then some kv.2 else dictGet? rest k

/-- Python `k in d`. -/
def dictHasKey {κ α : Type} [DecidableEq κ] (d : List (κ × α)) (k : κ) : Bool :=
  (dictGet? d k).isSome

/-- Python `d[k] = v`: replace in place when the key exists (keeping its
position), append otherwise. -/
def dictInsert {κ α : Type} [DecidableEq κ] (d : List (κ × α)) (k : κ) (v : α) :
    List (κ × α) :=
  if dictHasKey d k then d.map (fun kv => if kv.1 = k then (k, v) else kv)
  else d ++ [(k, v)]

/-- Python `d.update(u)`. -/
def dictUpdate {κ α : Type} [DecidableEq κ] (d u : List (κ × α)) : List (κ × α) :=
  u.foldl (fun acc kv => dictInsert acc kv.1 kv.2) d

/-- One constraint record of the schema, as extracted from
`fdmprinter.def.json` by `extract_settings_from_def`: every field the
validator reads is optional, exactly like `dict.get` on the extracted
record.  Numeric JSON values are modelled as rationals. -/
structure SettingInfo where
  type : Option String
  default_value : Option PyVal
  minimum_value : Option Rat
  maximum_value : Option Rat
  minimum_value_warning : Option Rat
  maximum_value_warning : Option Rat
  options : List String
  settable_per_extruder : Option Bool
deriving DecidableEq, Repr

/-- The flat schema index: setting key to constraint record
(`SettingMetadata.settings`). -/
abbrev Schema := List (String × SettingInfo)

/-- Code lines 442–446 (`SettingMetadata.is_per_extruder`): unknown keys
are not per-extruder; otherwise `info.get("settable_per_extruder", False)`. -/
def is_per_extruder (m : Schema) (k : String) : Bool :=
  match dictGet? m k with
  | none => false
  | some info => info.settable_per_extruder.getD false

/-- Code lines 418–422 (`SettingMetadata.get_type`). -/
def get_type (m : Schema) (k : String) : String :=
  match dictGet? m k with
  | none => "unknown"
  | some info => info.type.getD "unknown"

/-- Code lines 467–472, the `bool` arm of the type-coercion block of
`validate_value`: native booleans pass through, strings are compared
case-insensitively against `("true", "1", "yes")`, anything else goes
through Python `bool(value)` truthiness.  The result is assigned to the
local variable `value` and then discarded by the function. -/
def coerce_bool : PyVal → Bool
  | .bool b => b
  | .str s => (["true", "1", "yes"] : List String).contains (lowerStr s)
  | v => py_truthy v

/-- Model of Python `int(s)` on a string: optional sign followed by
decimal digits (whitespace and underscore tolerance of CPython is outside
the model; no claim depends on it). -/
def parseNatDigits : List Char → Nat → Option Nat
  | [], acc => some acc
  | c :: rest, acc =>
    if c.isDigit then parseNatDigits rest (acc * 10 + (c.toNat - 48)) else none

/-- Parse a Python int literal. -/
def parse_int (s : String) : Option Int :=
  match s.data with
  | [] => none
  | '-' :: rest =>
    if rest = [] then none else (parseNatDigits rest 0).map (fun n => -(n : Int))
  | '+' :: rest =>
    if rest = [] then none else (parseNatDigits rest 0).map (fun n => (n : Int))
  | cs => (parseNatDigits cs 0).map (fun n => (n : Int))

/-- Core of the model of Python `float(s)`: digits with an optional single
dot (`"1."`, `".5"` and `"1.5"` forms); exponents, `inf`/`nan` and
whitespace tolerance are outside the model, no claim depends on them. -/
def parseDecCore (cs : List Char) : Option Rat :=
  let ip := cs.takeWhile (fun c => c != '.')
  match cs.dropWhile (fun c => c != '.') with
  | [] => if ip = [] then none else (parseNatDigits ip 0).map (fun n => mkRat (n : Int) 1)
  | _ :: fp =>
    if ip = [] ∧ fp = [] then none
    else
      match (if ip = [] then some 0 else parseNatDigits ip 0),
            (if fp = [] then some 0 else parseNatDigits fp 0) with
      | some i, some f => some (mkRat ((i * 10 ^ fp.length + f : Nat) : Int) (10 ^ fp.length))
      | _, _ => none

/-- Parse a Python float literal. -/
def parse_float (s : String) : Option Rat :=
  match s.data with
  | '-' :: rest => (parseDecCore rest).map (fun q => -q)
  | '+' :: rest => parseDecCore rest
  | cs => parseDecCore cs

/-- Python `int(f)` truncates toward zero. -/
def rat_trunc (q : Rat) : Int :=
  q.num.tdiv (q.den : Int)

/-- Code lines 461–463, the `int` arm of the coercion block: a
non-boolean int passes through, everything else goes through `int(value)`
(which truncates floats, maps booleans to 0/1 and parses integer
literals, raising `ValueError` on other strings — modelled as `none`). -/
def to_py_int : PyVal → Option Int
  | .int n => some n
  | .bool b => some (if b then 1 else 0)
  | .float q => some (rat_trunc q)
  | .str s => parse_int s

/-- Code lines 464–466, the `float` arm of the coercion block: ints and
floats pass through unchanged (so an int stays an int), booleans and
parseable strings become floats, other strings raise (modelled `none`). -/
def to_py_float : PyVal → Option PyVal
  | .int n => some (.int n)
  | .float q => some (.float q)
  | .bool b => some (.float (if b then 1 else 0))
  | .str s => (parse_float s).map PyVal.float

/-- Numeric content of a coerced value (only `.int`/`.float` reach the
range check). -/
def num_of : PyVal → Rat
  | .int n => mkRat n 1
  | .float q => q
  | .bool b => if b then 1 else 0
  | .str _ => 0

/-- Python `", ".join(warnings)`. -/
def joinSep (sep : String) : List String → String
  | [] => ""
  | [a] => a
  | a :: b :: rest => a ++ sep ++ joinSep sep (b :: rest)

/-- Code lines 492–500: the soft-bound pass of `validate_value`.  The
warnings list is built minimum first, then maximum, and joined into a
single advisory string; the value is accepted either way. -/
def range_check_soft (info : SettingInfo) (w : PyVal) : Bool × String :=
  let x := num_of w
  let ws :=
    (match info.minimum_value_warning with
     | some m => if x < m then ["below recommended " ++ py_num_repr m] else []
     | none => []) ++
    (match info.maximum_value_warning with
     | some m => if m < x then ["above recommended " ++ py_num_repr m] else []
     | none => [])
  if ws.isEmpty then (true, "") else (true, "Value " ++ py_str w ++ " " ++ joinSep ", " ws)

/-- Code lines 489–490: the hard maximum check of `validate_value`. -/
def range_check_max (info : SettingInfo) (w : PyVal) : Bool × String :=
  match info.maximum_value with
  | some m =>
    if m < num_of w then (false, "Value " ++ py_str w ++ " above maximum " ++ py_num_repr m)
    else range_check_soft info w
  | none => range_check_soft info w

/-- Code lines 481–500: the full numeric range check of `validate_value`,
run on the coerced value: hard minimum, hard maximum, then soft bounds. -/
def range_check (info : SettingInfo) (w : PyVal) : Bool × String :=
  match info.minimum_value with
  | some m =>
    if num_of w < m then (false, "Value " ++ py_str w ++ " below minimum " ++ py_num_repr m)
    else range_check_max info w
  | none => range_check_max info w

/-- Membership test `value not in options` of the enum arm: `options` is
the dict from option key to label, so membership is key membership, and a
non-string value never equals a string key. -/
def enum_mem (v : PyVal) (keys : List String) : Bool :=
  match v with
  | .str s => keys.contains s
  | _ => false

/-- The single-quote character, for Python `repr` of strings. -/
def sq : String := String.mk [Char.ofNat 39]

/-- Python `repr` of a simple string (no embedded quotes), as used by the
f-string rendering of `list(options.keys())`. -/
def py_repr_str (s : String) : String := sq ++ s ++ sq

/-- Python `str(list(options.keys()))`. -/
def py_list_repr (keys : List String) : String :=
  "[" ++ joinSep ", " (keys.map py_repr_str) ++ "]"

/-- Code line 476: the `InvalidOption` message, carrying the full option
key list. -/
def invalid_option_msg (v : PyVal) (keys : List String) : String :=
  "Invalid option " ++ py_repr_str (py_str v) ++ ". Valid: " ++ py_list_repr keys

/-- Stand-in for the `ValueError` text interpolated into the line-477
message (the exact CPython wording is not observable by any claim). -/
def conv_fail_int : String := "Type conversion failed: invalid literal for int"

/-- Stand-in for the float `ValueError` text of the same message. -/
def conv_fail_float : String := "Type conversion failed: could not convert string to float"

/-- Code lines 448–502 (`SettingMetadata.validate_value`): returns the
pair `(is_valid, error_or_warning_message)`.  Unknown keys pass, the
coercion block runs per declared type (the coerced value is local to the
function), numeric types then go through the range check, enums through
the membership check. -/
def validate_value (schema : Schema) (key : String) (v : PyVal) : Bool × String :=
  match dictGet? schema key with
  | none => (true, "")
  | some info =>
    let t := info.type.getD "unknown"
    if t = "int" then
      match to_py_int v with
      | none => (false, conv_fail_int)
      | some n => range_check info (.int n)
    else if t = "float" then
      match to_py_float v with
      | none => (false, conv_fail_float)
      | some w => range_check info w
    else if t = "bool" then
      let _coerced := coerce_bool v
      (true, "")
    else if t = "enum" then
      if enum_mem v info.options then (true, "")
      else (false, invalid_option_msg v info.options)
    else (true, "")

/-- Code lines 512–524 (`SettingMetadata.format_value_for_cfg`): booleans
render by truthiness as `True`/`False`, string-typed values get newline
and tab escaped, everything else goes through `str(value)`. -/
def format_value_for_cfg (m : Schema) (k : String) (v : PyVal) : String :=
  let t := get_type m k
  if t = "bool" then (if py_truthy v then "True" else "False")
  else if t = "str" ∨ t = "extruder" then
    match v with
    | .str s => pyReplace (pyReplace s "\n" "\\n") "\t" "\\t"
    | _ => py_str v
  else py_str v

/-- Condition of code line 758: `self.metadata and self.metadata.loaded and
self.metadata.is_per_extruder(key)`.  A missing or unloaded metadata object
is modelled as `none`. -/
def per_extruder_cond (md : Option Schema) (k : String) : Bool :=
  match md with
  | some m => is_per_extruder m k
  | none => false

/-- One iteration of the loop at code lines 757–761: route the setting to
`extruder_only` or `global_only`. -/
def split_step (md : Option Schema)
    (acc : List (String × PyVal) × List (String × PyVal)) (kv : String × PyVal) :
    List (String × PyVal) × List (String × PyVal) :=
  if per_extruder_cond md kv.1 then (acc.1, dictInsert acc.2 kv.1 kv.2)
  else (dictInsert acc.1 kv.1 kv.2, acc.2)

/-- Code lines 753–761 of `build_curaprofile`: split the validated batch
into `global_only` and `extruder_only` dicts, in iteration order. -/
def split_settings (md : Option Schema) (gs : List (String × PyVal)) :
    List (String × PyVal) × List (String × PyVal) :=
  gs.foldl (split_step md) ([], [])

/-- Python `merged[pos].update(s)` step on the association list from
extruder position to settings dict. -/
def assocModify {κ α : Type} [DecidableEq κ] (d : List (κ × α)) (k : κ) (f : α → α) :
    List (κ × α) :=
  d.map (fun kv => if kv.1 = k then (k, f kv.2) else kv)

/-- Code lines 778–783 of `build_curaprofile`: start from
`{0: dict(extruder_only)}` and merge the caller's `extruder_settings`
override map over it position by position, `update` giving the override
per-key precedence. -/
def merged_step (acc : List (Int × List (String × PyVal)))
    (ps : Int × List (String × PyVal)) : List (Int × List (String × PyVal)) :=
  assocModify (if dictHasKey acc ps.1 then acc else acc ++ [(ps.1, [])]) ps.1
    (fun d => dictUpdate d ps.2)

/-- Fold of `merged_step` over the caller's override map, starting from
the default routing. -/
def merged_extruder (eo : List (String × PyVal))
    (es : List (Int × List (String × PyVal))) : List (Int × List (String × PyVal)) :=
  es.foldl merged_step [(0, eo)]

/-- Code lines 777–794: extruder config blocks are produced only when
there is anything extruder-side at all (line 777) and only for positions
with a nonempty settings dict (line 786). -/
def extruder_groups (eo : List (String × PyVal))
    (es : List (Int × List (String × PyVal))) : List (Int × List (String × PyVal)) :=
  if eo = [] ∧ es = [] then []
  else (merged_extruder eo es).filter (fun pd => !pd.2.isEmpty)

/-- Ambient state of the builder relevant to `generate_inst_cfg`:
`setting_version` (line 694 reads `self.setting_version or 23`) and the
wall clock `now` that the script's imported `datetime` module would give —
the determinism claim is that the output never depends on `now`. -/
structure BuilderEnv where
  setting_version : Option Int
  now : Int
deriving DecidableEq, Repr

/-- Python `self.setting_version or 23`: `None` and `0` are falsy. -/
def setting_version_or_23 : Option Int → Int
  | some n => if n = 0 then 23 else n
  | none => 23

/-- Line 704–707: values are formatted through the metadata when it is
loaded, by bare `str(value)` otherwise. -/
def cfg_format_value (md : Option Schema) (k : String) (v : PyVal) : String :=
  match md with
  | some m => format_value_for_cfg m k v
  | none => py_str v

/-- One `key = value` line as `ConfigParser.write` emits it (embedded
newlines in a value are continued with a tab, per configparser). -/
def cfg_entry_line (kv : String × String) : String :=
  kv.1 ++ " = " ++ pyReplace kv.2 "\n" "\n\t"

/-- The lines of one section as `ConfigParser.write` emits them: header,
entries in insertion order, one blank line. -/
def cfg_section_lines (name : String) (entries : List (String × String)) : List String :=
  ("[" ++ name ++ "]") :: (entries.map cfg_entry_line ++ [""])

/-- The lines `ConfigParser.write` emits for a whole parser: sections in
insertion order. -/
def config_write_lines (sections : List (String × List (String × String))) : List String :=
  (sections.map (fun s => cfg_section_lines s.1 s.2)).flatten

/-- The exact text `ConfigParser.write` produces (each line terminated by
a newline). -/
def config_write (sections : List (String × List (String × String))) : String :=
  String.join ((config_write_lines sections).map (fun l => l ++ "\n"))

/-- Code lines 669–713 (`generate_inst_cfg`), as the section data the
method inserts into the `ConfigParser`: fixed `[general]` entries, the
`[metadata]` entries with the optional extruder `position`, and — only
when the settings dict is nonempty — the `[values]` entries in insertion
order, with keys lowercased by configparser's default `optionxform`. -/
def generate_inst_cfg_sections (env : BuilderEnv) (md : Option Schema)
    (profile_name defn quality_type : String) (settings : List (String × PyVal))
    (is_extruder : Bool) (extruder_position : Int) :
    List (String × List (String × String)) :=
  [("general", [("version", "4"), ("name", profile_name), ("definition", defn)]),
   ("metadata",
     [("type", "quality_changes"), ("quality_type", quality_type),
      ("setting_version", toString (setting_version_or_23 env.setting_version))] ++
     (if is_extruder then [("position", toString extruder_position)] else []))] ++
  (if settings = [] then []
   else [("values", settings.map (fun kv => (lowerStr kv.1, cfg_format_value md kv.1 kv.2)))])

/-- Code lines 669–713: the full `.inst.cfg` text. -/
def generate_inst_cfg (env : BuilderEnv) (md : Option Schema)
    (profile_name defn quality_type : String) (settings : List (String × PyVal))
    (is_extruder : Bool) (extruder_position : Int) : String :=
  config_write
    (generate_inst_cfg_sections env md profile_name defn quality_type settings
      is_extruder extruder_position)

/-- Independent extraction of the `[values]` section from an emitted line
list: skip to the section header, then take lines up to the blank
terminator. -/
def values_section_lines (lines : List String) : List String :=
  (((lines.dropWhile (fun l => l != "[values]")).drop 1).takeWhile (fun l => l != ""))

/-- Python `a or b` on optional values, as used on the results of
`info.get(...)` in `build_from_json` line 889: an absent (`None`) or
falsy left operand yields the right operand. -/
def pyOr (a b : Option PyVal) : Option PyVal :=
  match a with
  | some v => if py_truthy v then some v else b
  | none => b

/-- Code line 889: `info.get("effective_value") or info.get("value") or
info.get("default_value")` (left associated, as Python evaluates it). -/
structure EffInfo where
  effective_value : Option PyVal
  value : Option PyVal
  default_value : Option PyVal
deriving DecidableEq, Repr

/-- The chosen value for one effective-settings entry. -/
def choose_effective (i : EffInfo) : Option PyVal :=
  pyOr (pyOr i.effective_value i.value) i.default_value

/-- Code lines 886–891 of `build_from_json`: starting from the settings
dict already populated from `_key_settings` (the `base` parameter), each
key of `machine.effective_settings` not yet present is added with the
truthiness-fallback value, and skipped entirely when that value is
`None`. -/
def add_eff_step (s : List (String × PyVal)) (ki : String × EffInfo) :
    List (String × PyVal) :=
  if dictHasKey s ki.1 then s
  else
    match choose_effective ki.2 with
    | some v => dictInsert s ki.1 v
    | none => s

/-- Fold of `add_eff_step` over the effective-settings map. -/
def add_effective_settings (base : List (String × PyVal))
    (eff : List (String × EffInfo)) : List (String × PyVal) :=
  eff.foldl add_eff_step base

/-- The numeric-type coercion step of `validate_value` (lines 461–466) as
a single function of the declared type, for stating range-check claims. -/
def coerce_numeric (t : String) (v : PyVal) : Option PyVal :=
  if t = "int" then (to_py_int v).map PyVal.int
  else if t = "float" then to_py_float v
  else none

/-- Whether the coerced value trips the hard minimum (line 487). -/
def below_min (info : SettingInfo) (x : Rat) : Bool :=
  match info.minimum_value with
  | some m => decide (x < m)
  | none => false

/-- Whether the coerced value trips the hard maximum (line 489). -/
def above_max (info : SettingInfo) (x : Rat) : Bool :=
  match info.maximum_value with
  | some m => decide (m < x)
  | none => false

/-- Whether the coerced value trips the soft minimum (line 494). -/
def below_warn (info : SettingInfo) (x : Rat) : Bool :=
  match info.minimum_value_warning with
  | some m => decide (x < m)
  | none => false

/-- Whether the coerced value trips the soft maximum (line 496). -/
def above_warn (info : SettingInfo) (x : Rat) : Bool :=
  match info.maximum_value_warning with
  | some m => decide (m < x)
  | none => false

/-- Substring containment on strings, used to state that an error message
lists a value. -/
def str_contains_sub (s sub : String) : Prop := ∃ l r, s = l ++ (sub ++ r)

/-- The `layer_height` scenario record of the spec: float with hard bounds
0.01 and 1.0. -/
def layer_height_info : SettingInfo :=
  ⟨some "float", none, some (mkRat 1 100), some (mkRat 1 1), none, none, [], none⟩

/-- Scenario schema for `layer_height`. -/
def layer_schema : Schema := [("layer_height", layer_height_info)]

/-- A bool-typed setting record. -/
def magic_bool_info : SettingInfo := ⟨some "bool", none, none, none, none, none, [], none⟩

/-- Schema with a single bool setting. -/
def magic_schema : Schema := [("magic_enable", magic_bool_info)]

/-- An int setting with hard bounds 0–100 and a soft maximum 100, like the
spec's `cool_fan_speed` scenario. -/
def cool_fan_info : SettingInfo :=
  ⟨some "int", none, some (mkRat 0 1), some (mkRat 100 1), none, some (mkRat 100 1), [], none⟩

/-- Scenario schema for `cool_fan_speed`. -/
def cool_schema : Schema := [("cool_fan_speed", cool_fan_info)]

/-- An int setting with no hard maximum and a soft maximum of 100. -/
def fan_warn_info : SettingInfo :=
  ⟨some "int", none, some (mkRat 0 1), none, none, some (mkRat 100 1), [], none⟩

/-- Schema for the soft-bound witness. -/
def fan_warn_schema : Schema := [("cool_fan_speed", fan_warn_info)]

/-- An enum setting with two options. -/
def pattern_info : SettingInfo :=
  ⟨some "enum", none, none, none, none, none, ["grid", "lines"], none⟩

/-- Schema for the enum witness. -/
def pattern_schema : Schema := [("support_pattern", pattern_info)]

/-- A non-per-extruder float setting. -/
def speed_info : SettingInfo := ⟨some "float", none, none, none, none, none, [], some false⟩

/-- Schema in which `speed_print` is a global (non-per-extruder) setting. -/
def speed_schema : Schema := [("speed_print", speed_info)]

/-- A per-extruder float setting. -/
def infill_info : SettingInfo := ⟨some "float", none, none, none, none, none, [], some true⟩

/-- Schema in which `infill_sparse_density` is per-extruder. -/
def infill_schema : Schema := [("infill_sparse_density", infill_info)]

/-- Effective-settings map for the C10 witness: falsy effective value 0
with a usable `value` fallback, a `False` effective value with no
fallback, and an all-falsy chain ending in the non-`None` default 0. -/
def eff_demo : List (String × EffInfo) :=
  [("speed_print", ⟨some (.int 0), some (.int 50), none⟩),
   ("gone_key", ⟨some (.bool false), none, none⟩),
   ("kept_zero", ⟨some (.str ""), some (.int 0), some (.int 0)⟩)]

theorem dictGet?_append {κ α : Type} [DecidableEq κ] (d e : List (κ × α)) (k : κ) :
    dictGet? (d ++ e) k = (dictGet? d k).or (dictGet? e k) := by
  induction d with
  | nil => simp [dictGet?]
  | cons kv t ih => by_cases h : kv.1 = k <;> simp [dictGet?, h, ih]

theorem dictGet?_map_replace_ne {κ α : Type} [DecidableEq κ]
    (d : List (κ × α)) (k' k : κ) (v : α) (h : k ≠ k') :
    dictGet? (d.map (fun kv => if kv.1 = k' then (k', v) else kv)) k = dictGet? d k := by
  induction d with
  | nil => rfl
  | cons kv t ih =>
    simp only [List.map_cons]
    by_cases hkv : kv.1 = k'
    · rw [if_pos hkv]
      have h1 : ¬(k' = k) := fun he => h he.symm
      have h2 : ¬(kv.1 = k) := hkv ▸ h1
      simp only [dictGet?, if_neg h1, if_neg h2, ih]
    · rw [if_neg hkv]
      by_cases hk2 : kv.1 = k
      · simp only [dictGet?, if_pos hk2]
      · simp only [dictGet?, if_neg hk2, ih]

theorem dictGet?_self_of_hasKey_map {κ α : Type} [DecidableEq κ]
    (d : List (κ × α)) (k : κ) (v : α) (hh : dictHasKey d k = true) :
    dictGet? (d.map (fun kv => if kv.1 = k then (k, v) else kv)) k = some v := by
  induction d with
  | nil => simp [dictHasKey, dictGet?] at hh
  | cons kv t ih =>
    simp only [List.map_cons]
    by_cases hkv : kv.1 = k
    · rw [if_pos hkv]
      simp [dictGet?]
    · rw [if_neg hkv]
      have ht : dictHasKey t k = true := by
        simpa [dictHasKey, dictGet?, hkv] using hh
      simp only [dictGet?, if_neg hkv, ih ht]

theorem dictGet?_dictInsert {κ α : Type} [DecidableEq κ] (d : List (κ × α)) (k' k : κ) (v : α) :
    dictGet? (dictInsert d k' v) k = if k = k' then some v else dictGet? d k := by
  unfold dictInsert
  by_cases hh : dictHasKey d k'
  · rw [if_pos hh]
    by_cases hk : k = k'
    · subst hk
      rw [if_pos rfl]
      exact dictGet?_self_of_hasKey_map d k v hh
    · rw [if_neg hk]
      exact dictGet?_map_replace_ne d k' k v hk
  · rw [if_neg hh, dictGet?_append]
    by_cases hk : k = k'
    · subst hk
      have hnone : dictGet? d k = none := by
        cases hg : dictGet? d k with
        | none => rfl
        | some w => exact absurd (by simp [dictHasKey, hg]) hh
      rw [hnone, if_pos rfl]
      simp [dictGet?, Option.or]
    · rw [if_neg hk]
      have h1 : dictGet? [(k', v)] k = none := by
        have hne : ¬(k' = k) := fun he => hk he.symm
        simp [dictGet?, hne]
      rw [h1]
      cases dictGet? d k <;> simp [Option.or]

theorem dictHasKey_dictInsert {κ α : Type} [DecidableEq κ] (d : List (κ × α)) (k' k : κ) (v : α) :
    dictHasKey (dictInsert d k' v) k = (decide (k = k') || dictHasKey d k) := by
  by_cases hk : k = k' <;> simp [dictHasKey, dictGet?_dictInsert, hk]

theorem mem_keys_of_hasKey {κ α : Type} [DecidableEq κ] {d : List (κ × α)} {k : κ}
    (h : dictHasKey d k = true) : k ∈ d.map Prod.fst := by
  induction d with
  | nil => simp [dictHasKey, dictGet?] at h
  | cons kv t ih =>
    by_cases hkv : kv.1 = k
    · simp [hkv]
    · have := ih (by simpa [dictHasKey, dictGet?, hkv] using h)
      simp [this]

theorem dictGet?_eq_none_of_not_mem {κ α : Type} [DecidableEq κ]
    {d : List (κ × α)} {k : κ} (h : k ∉ d.map Prod.fst) : dictGet? d k = none := by
  cases hg : dictGet? d k with
  | none => rfl
  | some w => exact absurd (mem_keys_of_hasKey (by simp [dictHasKey, hg])) h

theorem dictGet?_dictUpdate_not_mem {κ α : Type} [DecidableEq κ]
    {u : List (κ × α)} {k : κ} (d : List (κ × α)) (h : dictHasKey u k = false) :
    dictGet? (dictUpdate d u) k = dictGet? d k := by
  induction u generalizing d with
  | nil => rfl
  | cons ku t ih =>
    have hne : ¬(ku.1 = k) := by
      intro he
      simp [dictHasKey, dictGet?, he] at h
    have ht : dictHasKey t k = false := by
      simpa [dictHasKey, dictGet?, hne] using h
    show dictGet? (dictUpdate (dictInsert d ku.1 ku.2) t) k = dictGet? d k
    rw [ih _ ht, dictGet?_dictInsert]
    exact if_neg (fun he : k = ku.1 => hne he.symm)

theorem dictGet?_dictUpdate_mem {κ α : Type} [DecidableEq κ]
    {u : List (κ × α)} {k : κ} (d : List (κ × α))
    (hnd : (u.map Prod.fst).Nodup) (h : dictHasKey u k = true) :
    dictGet? (dictUpdate d u) k = dictGet? u k := by
  induction u generalizing d with
  | nil => simp [dictHasKey, dictGet?] at h
  | cons ku t ih =>
    simp only [List.map_cons, List.nodup_cons] at hnd
    by_cases hkv : ku.1 = k
    · have hknot : dictHasKey t k = false := by
        cases hc : dictHasKey t k with
        | false => rfl
        | true => exact absurd (hkv ▸ mem_keys_of_hasKey hc) hnd.1
      show dictGet? (dictUpdate (dictInsert d ku.1 ku.2) t) k = _
      rw [dictGet?_dictUpdate_not_mem _ hknot, dictGet?_dictInsert]
      rw [if_pos hkv.symm]
      simp [dictGet?, hkv]
    · have ht : dictHasKey t k = true := by
        simpa [dictHasKey, dictGet?, hkv] using h
      show dictGet? (dictUpdate (dictInsert d ku.1 ku.2) t) k = _
      rw [ih _ hnd.2 ht]
      simp [dictGet?, hkv]

theorem dictHasKey_dictUpdate_left {κ α : Type} [DecidableEq κ]
    {u : List (κ × α)} {k : κ} (d : List (κ × α)) (h : dictHasKey d k = true) :
    dictHasKey (dictUpdate d u) k = true := by
  induction u generalizing d with
  | nil => exact h
  | cons ku t ih =>
    show dictHasKey (dictUpdate (dictInsert d ku.1 ku.2) t) k = true
    apply ih
    rw [dictHasKey_dictInsert]
    simp [h]

theorem dictHasKey_dictUpdate_elim {κ α : Type} [DecidableEq κ]
    {u : List (κ × α)} {k : κ} (d : List (κ × α))
    (h : dictHasKey (dictUpdate d u) k = true) :
    dictHasKey d k = true ∨ dictHasKey u k = true := by
  induction u generalizing d with
  | nil => exact Or.inl h
  | cons ku t ih =>
    rcases ih (dictInsert d ku.1 ku.2) h with h1 | h2
    · rw [dictHasKey_dictInsert] at h1
      rcases Bool.or_eq_true_iff.mp h1 with he | hd
      · right
        have : k = ku.1 := of_decide_eq_true he
        simp [dictHasKey, dictGet?, this]
      · exact Or.inl hd
    · right
      simp only [dictHasKey, dictGet?]
      by_cases hkv : ku.1 = k <;> simp [hkv]
      exact h2

theorem str_ne_of_head {s t : String} {c c2 : Char} {cs cs2 : List Char}
    (hs : s.data = c :: cs) (ht : t.data = c2 :: cs2) (h : c ≠ c2) : s ≠ t := by
  intro he
  have hd : c :: cs = c2 :: cs2 := by rw [← hs, ← ht, he]
  injection hd with h1 _
  exact h h1

theorem dropWhile_app {α : Type} (p : α → Bool) (l1 l2 : List α)
    (h : ∀ x ∈ l1, p x = true) :
    List.dropWhile p (l1 ++ l2) = List.dropWhile p l2 := by
  induction l1 with
  | nil => rfl
  | cons a t ih =>
    simp only [List.cons_append, List.dropWhile_cons, h a (by simp)]
    exact ih (fun x hx => h x (by simp [hx]))

theorem takeWhile_app {α : Type} (p : α → Bool) (l1 : List α) (x : α) (l2 : List α)
    (h : ∀ y ∈ l1, p y = true) (hx : p x = false) :
    List.takeWhile p (l1 ++ x :: l2) = l1 := by
  induction l1 with
  | nil => simp [List.takeWhile_cons, hx]
  | cons a t ih =>
    simp only [List.cons_append, List.takeWhile_cons, h a (by simp), if_true]
    rw [ih (fun y hy => h y (by simp [hy]))]

theorem joinSep_contains {sep : String} {xs : List String} {x : String} (hx : x ∈ xs) :
    ∃ l r, joinSep sep xs = l ++ (x ++ r) := by
  induction xs with
  | nil => cases hx
  | cons a t ih =>
    rcases List.mem_cons.mp hx with rfl | hmem
    · cases t with
      | nil => exact ⟨"", "", by simp [joinSep, String.append_empty, String.empty_append]⟩
      | cons b t2 =>
        refine ⟨"", sep ++ joinSep sep (b :: t2), ?_⟩
        simp [joinSep, String.empty_append, String.append_assoc]
    · cases t with
      | nil => cases hmem
      | cons b t2 =>
        obtain ⟨l, r, hl⟩ := ih hmem
        refine ⟨a ++ sep ++ l, r, ?_⟩
        show joinSep sep (a :: b :: t2) = _
        rw [joinSep, hl]
        simp [String.append_assoc]

theorem dictHasKey_append {κ α : Type} [DecidableEq κ] (d e : List (κ × α)) (k : κ) :
    dictHasKey (d ++ e) k = (dictHasKey d k || dictHasKey e k) := by
  simp only [dictHasKey, dictGet?_append]
  cases dictGet? d k <;> simp [Option.or]

theorem dictInsert_fresh {κ α : Type} [DecidableEq κ] (d : List (κ × α)) (k : κ) (v : α)
    (h : dictHasKey d k = false) : dictInsert d k v = d ++ [(k, v)] := by
  simp [dictInsert, h]

theorem split_settings_go (md : Option Schema) (gs : List (String × PyVal))
    (g0 e0 : List (String × PyVal))
    (hnd : (gs.map Prod.fst).Nodup)
    (hg : ∀ kv ∈ gs, dictHasKey g0 kv.1 = false)
    (he : ∀ kv ∈ gs, dictHasKey e0 kv.1 = false) :
    gs.foldl (split_step md) (g0, e0) =
      (g0 ++ gs.filter (fun kv => !per_extruder_cond md kv.1),
       e0 ++ gs.filter (fun kv => per_extruder_cond md kv.1)) := by
  induction gs generalizing g0 e0 with
  | nil => simp
  | cons kv t ih =>
    simp only [List.map_cons, List.nodup_cons] at hnd
    have hkg := hg kv (List.mem_cons_self _ _)
    have hke := he kv (List.mem_cons_self _ _)
    have hfresh : ∀ x ∈ t, ¬(kv.1 = x.1) := by
      intro x hx he2
      exact hnd.1 (he2 ▸ List.mem_map.mpr ⟨x, hx, rfl⟩)
    rw [List.foldl_cons, List.filter_cons, List.filter_cons]
    by_cases hc : per_extruder_cond md kv.1
    · rw [split_step, if_pos hc, dictInsert_fresh _ _ _ hke]
      rw [ih g0 (e0 ++ [(kv.1, kv.2)]) hnd.2
        (fun x hx => hg x (List.mem_cons_of_mem _ hx))
        (fun x hx => by
          rw [dictHasKey_append, he x (List.mem_cons_of_mem _ hx)]
          simp [dictHasKey, dictGet?, hfresh x hx])]
      simp [hc, List.append_assoc]
    · rw [split_step, if_neg hc, dictInsert_fresh _ _ _ hkg]
      rw [ih (g0 ++ [(kv.1, kv.2)]) e0 hnd.2
        (fun x hx => by
          rw [dictHasKey_append, hg x (List.mem_cons_of_mem _ hx)]
          simp [dictHasKey, dictGet?, hfresh x hx])
        (fun x hx => he x (List.mem_cons_of_mem _ hx))]
      simp [hc, List.append_assoc]

theorem split_settings_eq (md : Option Schema) (gs : List (String × PyVal))
    (hnd : (gs.map Prod.fst).Nodup) :
    split_settings md gs =
      (gs.filter (fun kv => !per_extruder_cond md kv.1),
       gs.filter (fun kv => per_extruder_cond md kv.1)) := by
  have h := split_settings_go md gs [] [] hnd (fun kv _ => rfl) (fun kv _ => rfl)
  simpa [split_settings] using h

theorem dictGet?_filter {κ α : Type} [DecidableEq κ] {gs : List (κ × α)} {k : κ} {v : α}
    (p : κ × α → Bool) (hnd : (gs.map Prod.fst).Nodup) (h : dictGet? gs k = some v) :
    dictGet? (gs.filter p) k = if p (k, v) then some v else none := by
  induction gs with
  | nil => simp [dictGet?] at h
  | cons kv t ih =>
    simp only [List.map_cons, List.nodup_cons] at hnd
    by_cases hkv : kv.1 = k
    · have hv : kv.2 = v := by
        have := h
        simp only [dictGet?, if_pos hkv] at this
        exact Option.some.inj this
      have hkveq : kv = (k, v) := by
        rw [← hkv, ← hv]
      have hnone : dictGet? (t.filter p) k = none := by
        apply dictGet?_eq_none_of_not_mem
        intro hmem
        apply hnd.1
        rw [hkv]
        obtain ⟨x, hx, hfst⟩ := List.mem_map.mp hmem
        exact List.mem_map.mpr ⟨x, List.mem_of_mem_filter hx, hfst⟩
      rw [List.filter_cons]
      by_cases hp : p kv = true
      · rw [if_pos hp]
        rw [hkveq] at hp ⊢
        simp [dictGet?, hp]
      · rw [if_neg hp]
        rw [hkveq] at hp
        simp only [Bool.not_eq_true] at hp
        simp [hp, hnone]
    · have ht : dictGet? t k = some v := by
        simpa [dictGet?, hkv] using h
      rw [List.filter_cons]
      by_cases hp : p kv = true
      · rw [if_pos hp]
        simp only [dictGet?, if_neg hkv]
        exact ih hnd.2 ht
      · rw [if_neg hp]
        exact ih hnd.2 ht

theorem dictGet?_assocModify {κ α : Type} [DecidableEq κ]
    (d : List (κ × α)) (q p : κ) (f : α → α) :
    dictGet? (assocModify d q f) p =
      if p = q then (dictGet? d p).map f else dictGet? d p := by
  induction d with
  | nil => simp [assocModify, dictGet?]
  | cons kv t ih =>
    simp only [assocModify, List.map_cons] at *
    by_cases hkv : kv.1 = q
    · rw [if_pos hkv]
      by_cases hp : p = q
      · subst hp
        simp [dictGet?, hkv]
      · have h1 : ¬(q = p) := fun he => hp he.symm
        have h2 : ¬(kv.1 = p) := hkv ▸ h1
        simp [dictGet?, h1, h2, ih, hp]
    · rw [if_neg hkv]
      by_cases hkp : kv.1 = p
      · by_cases hp : p = q
        · exact absurd (hp ▸ hkp) hkv
        · simp [dictGet?, hkp, hp]
      · simp only [dictGet?, if_neg hkp, ih]

theorem merged_step_self (acc : List (Int × List (String × PyVal)))
    (ps : Int × List (String × PyVal)) (d0 : List (String × PyVal))
    (hd0 : dictGet? acc ps.1 = some d0) :
    dictGet? (merged_step acc ps) ps.1 = some (dictUpdate d0 ps.2) := by
  have hh : dictHasKey acc ps.1 = true := by simp [dictHasKey, hd0]
  rw [merged_step, dictGet?_assocModify, if_pos rfl, if_pos hh, hd0]
  rfl

theorem merged_step_new (acc : List (Int × List (String × PyVal)))
    (ps : Int × List (String × PyVal)) (hd0 : dictGet? acc ps.1 = none) :
    dictGet? (merged_step acc ps) ps.1 = some (dictUpdate [] ps.2) := by
  have hh : dictHasKey acc ps.1 = false := by simp [dictHasKey, hd0]
  rw [merged_step, dictGet?_assocModify, if_pos rfl, if_neg (by simp [hh])]
  rw [dictGet?_append, hd0]
  simp [dictGet?, Option.or]

theorem merged_step_other (acc : List (Int × List (String × PyVal)))
    (ps : Int × List (String × PyVal)) (q : Int) (h : ¬(q = ps.1)) :
    dictGet? (merged_step acc ps) q = dictGet? acc q := by
  rw [merged_step, dictGet?_assocModify, if_neg h]
  by_cases hh : dictHasKey acc ps.1
  · rw [if_pos hh]
  · rw [if_neg hh, dictGet?_append]
    have h1 : dictGet? [(ps.1, ([] : List (String × PyVal)))] q = none := by
      have hne : ¬(ps.1 = q) := fun he => h he.symm
      simp [dictGet?, hne]
    rw [h1]
    cases dictGet? acc q <;> simp [Option.or]

theorem merged_fold_not_mem (es : List (Int × List (String × PyVal))) :
    ∀ (acc : List (Int × List (String × PyVal))) (p : Int), p ∉ es.map Prod.fst →
      dictGet? (es.foldl merged_step acc) p = dictGet? acc p := by
  induction es with
  | nil => intro acc p _; rfl
  | cons ps t ih =>
    intro acc p h
    simp only [List.map_cons, List.mem_cons] at h
    push_neg at h
    rw [List.foldl_cons, ih _ p h.2, merged_step_other _ _ _ h.1]

theorem merged_fold_mono (es : List (Int × List (String × PyVal))) :
    ∀ (acc : List (Int × List (String × PyVal))) (q : Int) (k : String)
      (d0 : List (String × PyVal)),
      dictGet? acc q = some d0 → dictHasKey d0 k = true →
      ∃ d, dictGet? (es.foldl merged_step acc) q = some d ∧ dictHasKey d k = true := by
  induction es with
  | nil => intro acc q k d0 hq hk; exact ⟨d0, hq, hk⟩
  | cons ps t ih =>
    intro acc q k d0 hq hk
    rw [List.foldl_cons]
    by_cases hpq : q = ps.1
    · have hstep : dictGet? (merged_step acc ps) q = some (dictUpdate d0 ps.2) := by
        rw [hpq] at hq ⊢
        exact merged_step_self acc ps d0 hq
      exact ih _ q k _ hstep (dictHasKey_dictUpdate_left _ hk)
    · have hstep : dictGet? (merged_step acc ps) q = some d0 := by
        rw [merged_step_other _ _ _ hpq]; exact hq
      exact ih _ q k d0 hstep hk

theorem merged_fold_override (es : List (Int × List (String × PyVal))) :
    ∀ (acc : List (Int × List (String × PyVal))) (p : Int)
      (s : List (String × PyVal)) (k : String),
      (es.map Prod.fst).Nodup → (p, s) ∈ es → (s.map Prod.fst).Nodup →
      dictHasKey s k = true →
      ∃ d, dictGet? (es.foldl merged_step acc) p = some d ∧
        dictGet? d k = dictGet? s k := by
  induction es with
  | nil => intro acc p s k _ hmem; cases hmem
  | cons ps t ih =>
    intro acc p s k hpos hmem hs hk
    simp only [List.map_cons, List.nodup_cons] at hpos
    rw [List.foldl_cons]
    rcases List.mem_cons.mp hmem with heq | hmem'
    · have hp1 : ps.1 = p := by rw [← heq]
      have hp2 : ps.2 = s := by rw [← heq]
      obtain ⟨d0, hd0⟩ : ∃ d0,
          dictGet? (merged_step acc ps) ps.1 = some (dictUpdate d0 ps.2) := by
        cases hg : dictGet? acc ps.1 with
        | none => exact ⟨[], merged_step_new acc ps hg⟩
        | some w => exact ⟨w, merged_step_self acc ps w hg⟩
      have hnot : p ∉ t.map Prod.fst := hp1 ▸ hpos.1
      rw [merged_fold_not_mem t _ p hnot, ← hp1, hd0]
      refine ⟨dictUpdate d0 ps.2, rfl, ?_⟩
      rw [hp2]
      exact dictGet?_dictUpdate_mem d0 hs hk
    · exact ih _ p s k hpos.2 hmem' hs hk

theorem merged_fold_untouched (es : List (Int × List (String × PyVal))) :
    ∀ (acc : List (Int × List (String × PyVal))) (q : Int) (k : String)
      (d0 : List (String × PyVal)),
      dictGet? acc q = some d0 → (∀ s, (q, s) ∈ es → dictHasKey s k = false) →
      ∃ d, dictGet? (es.foldl merged_step acc) q = some d ∧
        dictGet? d k = dictGet? d0 k := by
  induction es with
  | nil => intro acc q k d0 hq _; exact ⟨d0, hq, rfl⟩
  | cons ps t ih =>
    intro acc q k d0 hq hno
    rw [List.foldl_cons]
    by_cases hpq : q = ps.1
    · have hstep : dictGet? (merged_step acc ps) q = some (dictUpdate d0 ps.2) := by
        rw [hpq] at hq ⊢
        exact merged_step_self acc ps d0 hq
      have hs2 : dictHasKey ps.2 k = false := by
        apply hno ps.2
        rw [hpq]
        exact List.mem_cons_self _ _
      obtain ⟨d, hd, hdk⟩ := ih _ q k _ hstep
        (fun s hsm => hno s (List.mem_cons_of_mem _ hsm))
      exact ⟨d, hd, by rw [hdk, dictGet?_dictUpdate_not_mem _ hs2]⟩
    · have hstep : dictGet? (merged_step acc ps) q = some d0 := by
        rw [merged_step_other _ _ _ hpq]; exact hq
      exact ih _ q k d0 hstep (fun s hsm => hno s (List.mem_cons_of_mem _ hsm))

theorem merged_fold_origin (es : List (Int × List (String × PyVal))) :
    ∀ (acc : List (Int × List (String × PyVal))) (pos : Int)
      (d : List (String × PyVal)) (k : String),
      (pos, d) ∈ es.foldl merged_step acc → dictHasKey d k = true →
      (∃ d0, (pos, d0) ∈ acc ∧ dictHasKey d0 k = true) ∨
        (∃ s, (pos, s) ∈ es ∧ dictHasKey s k = true) := by
  induction es with
  | nil => intro acc pos d k hmem hk; exact Or.inl ⟨d, hmem, hk⟩
  | cons ps t ih =>
    intro acc pos d k hmem hk
    rw [List.foldl_cons] at hmem
    rcases ih (merged_step acc ps) pos d k hmem hk with ⟨d0, hd0mem, hd0k⟩ | ⟨s, hsmem, hsk⟩
    · rw [merged_step, assocModify] at hd0mem
      obtain ⟨orig, horig, heq⟩ := List.mem_map.mp hd0mem
      have hacc' : orig ∈ acc ∨ orig = (ps.1, ([] : List (String × PyVal))) := by
        by_cases hh : dictHasKey acc ps.1
        · rw [if_pos hh] at horig; exact Or.inl horig
        · rw [if_neg hh] at horig
          rcases List.mem_append.mp horig with h1 | h2
          · exact Or.inl h1
          · exact Or.inr (by simpa using h2)
      by_cases ho : orig.1 = ps.1
      · rw [if_pos ho] at heq
        have hpos2 : ps.1 = pos := congrArg Prod.fst heq
        have hdeq : dictUpdate orig.2 ps.2 = d0 := congrArg Prod.snd heq
        rcases dictHasKey_dictUpdate_elim orig.2 (by rw [hdeq]; exact hd0k) with h1 | h2
        · rcases hacc' with hin | hnil
          · refine Or.inl ⟨orig.2, ?_, h1⟩
            have : (orig.1, orig.2) = orig := rfl
            rw [← hpos2, ← ho]
            exact this ▸ hin
          · rw [hnil] at h1
            simp [dictHasKey, dictGet?] at h1
        · refine Or.inr ⟨ps.2, ?_, h2⟩
          rw [← hpos2]
          exact List.mem_cons_self _ _
      · rw [if_neg ho] at heq
        rcases hacc' with hin | hnil
        · exact Or.inl ⟨d0, heq ▸ hin, hd0k⟩
        · exact absurd (by rw [hnil]) ho
    · exact Or.inr ⟨s, List.mem_cons_of_mem _ hsmem, hsk⟩

theorem add_eff_skip (eff : List (String × EffInfo)) :
    ∀ (base : List (String × PyVal)) (k : String), k ∉ eff.map Prod.fst →
      dictGet? (eff.foldl add_eff_step base) k = dictGet? base k := by
  induction eff with
  | nil => intro base k _; rfl
  | cons ki t ih =>
    intro base k h
    simp only [List.map_cons, List.mem_cons] at h
    push_neg at h
    rw [List.foldl_cons, ih _ k h.2]
    rw [add_eff_step]
    by_cases hh : dictHasKey base ki.1
    · rw [if_pos hh]
    · rw [if_neg hh]
      cases choose_effective ki.2 with
      | none => rfl
      | some v =>
        simp only
        rw [dictGet?_dictInsert, if_neg h.1]

theorem add_eff_main (eff : List (String × EffInfo)) :
    ∀ (base : List (String × PyVal)) (k : String) (i : EffInfo),
      (eff.map Prod.fst).Nodup → dictHasKey base k = false → (k, i) ∈ eff →
      dictGet? (eff.foldl add_eff_step base) k = choose_effective i := by
  induction eff with
  | nil => intro _ _ _ _ _ hmem; cases hmem
  | cons ki t ih =>
    intro base k i hnd hb hmem
    simp only [List.map_cons, List.nodup_cons] at hnd
    rw [List.foldl_cons]
    rcases List.mem_cons.mp hmem with heq | hmem'
    · have hk1 : ki.1 = k := by rw [← heq]
      have hk2 : ki.2 = i := by rw [← heq]
      have hnot : k ∉ t.map Prod.fst := hk1 ▸ hnd.1
      rw [add_eff_skip t _ k hnot, add_eff_step, hk1, if_neg (by simp [hb])]
      rw [hk2]
      cases hch : choose_effective i with
      | none =>
        simp only [dictHasKey] at hb
        exact Option.eq_none_iff_forall_not_mem.mpr
          (fun v hv => by rw [Option.mem_def] at hv; rw [hv] at hb; simp at hb)
      | some v =>
        simp only
        rw [dictGet?_dictInsert, if_pos rfl]
    · have hne : ¬(k = ki.1) := by
        intro he
        exact hnd.1 (he ▸ List.mem_map.mpr ⟨(k, i), hmem', by rw [he]⟩)
      have hb' : dictHasKey (add_eff_step base ki) k = false := by
        rw [add_eff_step]
        by_cases hh : dictHasKey base ki.1
        · rw [if_pos hh]; exact hb
        · rw [if_neg hh]
          cases choose_effective ki.2 with
          | none => exact hb
          | some v =>
            simp only [dictHasKey]
            rw [dictGet?_dictInsert, if_neg hne]
            exact hb
      exact ih _ k i hnd.2 hb' hmem'

theorem validate_value_numeric (schema : Schema) (key : String) (info : SettingInfo)
    (v w : PyVal)
    (hk : dictGet? schema key = some info)
    (ht : info.type.getD "unknown" = "int" ∨ info.type.getD "unknown" = "float")
    (hc : coerce_numeric (info.type.getD "unknown") v = some w) :
    validate_value schema key v = range_check info w := by
  rcases ht with h | h
  · obtain ⟨n, hn, hw⟩ := Option.map_eq_some'.mp (by simpa [coerce_numeric, h] using hc)
    simp [validate_value, hk, h, hn, ← hw]
  · have hc2 : to_py_float v = some w := by simpa [coerce_numeric, h] using hc
    simp [validate_value, hk, h, hc2]

theorem range_check_soft_fst (info : SettingInfo) (w : PyVal) :
    (range_check_soft info w).1 = true := by
  simp only [range_check_soft]
  split <;> rfl

theorem range_check_pass (info : SettingInfo) (w : PyVal)
    (h1 : below_min info (num_of w) = false)
    (h2 : above_max info (num_of w) = false) :
    range_check info w = range_check_soft info w := by
  have hmax : range_check_max info w = range_check_soft info w := by
    cases hM0 : info.maximum_value with
    | none => simp [range_check_max, hM0]
    | some M =>
      have hn : ¬(M < num_of w) := by
        intro hlt
        simp only [above_max, hM0] at h2
        simp [hlt] at h2
      simp [range_check_max, hM0, hn]
  cases hm0 : info.minimum_value with
  | none => simp [range_check, hm0, hmax]
  | some m =>
    have hn : ¬(num_of w < m) := by
      intro hlt
      simp only [below_min, hm0] at h1
      simp [hlt] at h1
    simp [range_check, hm0, hn, hmax]

theorem range_check_soft_min (info : SettingInfo) (w : PyVal) (mw : Rat)
    (hmw : info.minimum_value_warning = some mw) (hlt : num_of w < mw)
    (hnw : above_warn info (num_of w) = false) :
    range_check_soft info w =
      (true, "Value " ++ py_str w ++ " " ++ ("below recommended " ++ py_num_repr mw)) := by
  cases hx : info.maximum_value_warning with
  | none => simp [range_check_soft, hmw, hx, hlt, joinSep]
  | some xw =>
    have hn : ¬(xw < num_of w) := by
      intro hl
      simp only [above_warn, hx] at hnw
      simp [hl] at hnw
    simp [range_check_soft, hmw, hx, hlt, hn, joinSep]

theorem range_check_soft_max (info : SettingInfo) (w : PyVal) (xw : Rat)
    (hxw : info.maximum_value_warning = some xw) (hgt : xw < num_of w)
    (hnw : below_warn info (num_of w) = false) :
    range_check_soft info w =
      (true, "Value " ++ py_str w ++ " " ++ ("above recommended " ++ py_num_repr xw)) := by
  cases hx : info.minimum_value_warning with
  | none => simp [range_check_soft, hxw, hx, hgt, joinSep]
  | some mw =>
    have hn : ¬(num_of w < mw) := by
      intro hl
      simp only [below_warn, hx] at hnw
      simp [hl] at hnw
    simp [range_check_soft, hxw, hx, hgt, hn, joinSep]

theorem range_check_soft_both (info : SettingInfo) (w : PyVal) (mw xw : Rat)
    (hmw : info.minimum_value_warning = some mw)
    (hxw : info.maximum_value_warning = some xw)
    (hlt : num_of w < mw) (hgt : xw < num_of w) :
    range_check_soft info w =
      (true, "Value " ++ py_str w ++ " " ++
        ("below recommended " ++ py_num_repr mw ++ ", " ++
          ("above recommended " ++ py_num_repr xw))) := by
  simp [range_check_soft, hmw, hxw, hlt, hgt, joinSep]

/-- C1 counterexample: the claim says validation returns the raw value
coerced to the declared type, but `validate_value` returns only
`(is_valid, message)` and the raw value flows on unchanged.  The string
"false" for a bool-typed setting is accepted; the spec's coercion gives the
boolean false; yet the value carried to serialization is the raw string,
which `format_value_for_cfg` renders as "True" by truthiness while the
coerced boolean would render "False". -/
theorem validate_no_coerced_value_cex :
    validate_value magic_schema "magic_enable" (.str "false") = (true, "") ∧
    coerce_bool (.str "false") = false ∧
    format_value_for_cfg magic_schema "magic_enable" (.str "false") = "True" ∧
    format_value_for_cfg magic_schema "magic_enable" (.bool false) = "False" :=
  ⟨by decide, by decide, by decide, by decide⟩

/-- C1 (amended): for a key in the schema, an accepted raw value is
reported valid with the optional advisory, but the value itself is not
returned coerced: the `(key, raw value)` pair flows into the partition
unchanged.  Scenario: `layer_height` declared float with bounds 0.01–1.0
accepts the float 0.05 with no advisory. -/
theorem validate_accepts_and_passes_raw_value
    (md : Option Schema) (gs : List (String × PyVal)) (k : String) (v : PyVal)
    (hnd : (gs.map Prod.fst).Nodup) (h : dictGet? gs k = some v) :
    validate_value layer_schema "layer_height" (.float (mkRat 1 20)) = (true, "") ∧
    (dictGet? (split_settings md gs).1 k = some v ∨
      dictGet? (split_settings md gs).2 k = some v) := by
  refine ⟨by decide, ?_⟩
  rw [split_settings_eq md gs hnd]
  by_cases hc : per_extruder_cond md k
  · right
    rw [dictGet?_filter _ hnd h]
    simp [hc]
  · left
    rw [dictGet?_filter _ hnd h]
    simp [hc]

/-- C1 witness: the amended claim at the scenario input. -/
theorem validate_accepts_and_passes_raw_value_witness :
    validate_value layer_schema "layer_height" (.float (mkRat 1 20)) = (true, "") ∧
    (dictGet? (split_settings none [("layer_height", PyVal.float (mkRat 1 20))]).1
        "layer_height" = some (.float (mkRat 1 20)) ∨
      dictGet? (split_settings none [("layer_height", PyVal.float (mkRat 1 20))]).2
        "layer_height" = some (.float (mkRat 1 20))) :=
  validate_accepts_and_passes_raw_value none
    [("layer_height", PyVal.float (mkRat 1 20))] "layer_height"
    (.float (mkRat 1 20)) (by decide) (by decide)

/-- C2 counterexample: the claim says every raw value other than a native
boolean or one of the strings "true"/"1"/"yes" coerces to false, but the
code sends non-string non-boolean values through Python truthiness, so the
integer 5 coerces to true. -/
theorem coerce_bool_truthiness_cex : coerce_bool (.int 5) = true := by decide

/-- C2 (amended): bool coercion passes native booleans through, compares
strings case-insensitively against "true"/"1"/"yes", and sends every
non-string non-boolean value through Python truthiness (so nonzero
numbers coerce to true, zero to false). -/
theorem coerce_bool_amended :
    (∀ b, coerce_bool (.bool b) = b) ∧
    (∀ s, coerce_bool (.str s) =
      decide (lowerStr s ∈ (["true", "1", "yes"] : List String))) ∧
    (∀ n, coerce_bool (.int n) = py_truthy (.int n)) ∧
    (∀ q, coerce_bool (.float q) = py_truthy (.float q)) := by
  refine ⟨fun b => rfl, fun s => ?_, fun n => rfl, fun q => rfl⟩
  simp [coerce_bool, List.contains, List.elem_eq_mem]

/-- C3: for a numeric setting with hard bounds `m ≤ M`, a coerced value
strictly below `m` or strictly above `M` is rejected with the
out-of-range message, while a value exactly at `m` or at `M` is
accepted. -/
theorem numeric_hard_bounds (schema : Schema) (key : String) (info : SettingInfo)
    (v w : PyVal) (m M : Rat)
    (hk : dictGet? schema key = some info)
    (ht : info.type.getD "unknown" = "int" ∨ info.type.getD "unknown" = "float")
    (hc : coerce_numeric (info.type.getD "unknown") v = some w)
    (hm : info.minimum_value = some m) (hM : info.maximum_value = some M)
    (hmM : m ≤ M) :
    (num_of w < m →
      validate_value schema key v =
        (false, "Value " ++ py_str w ++ " below minimum " ++ py_num_repr m)) ∧
    (M < num_of w →
      validate_value schema key v =
        (false, "Value " ++ py_str w ++ " above maximum " ++ py_num_repr M)) ∧
    ((num_of w = m ∨ num_of w = M) → (validate_value schema key v).1 = true) := by
  rw [validate_value_numeric schema key info v w hk ht hc]
  refine ⟨?_, ?_, ?_⟩
  · intro h
    simp [range_check, hm, h]
  · intro h
    have hnm : ¬(num_of w < m) := not_lt.mpr (hmM.trans h.le)
    simp [range_check, hm, hnm, range_check_max, hM, h]
  · intro h
    have hnm : ¬(num_of w < m) := by
      rcases h with h | h
      · rw [h]; exact lt_irrefl m
      · rw [h]; exact not_lt.mpr hmM
    have hnM : ¬(M < num_of w) := by
      rcases h with h | h
      · rw [h]; exact not_lt.mpr hmM
      · rw [h]; exact lt_irrefl M
    simp [range_check, hm, hnm, range_check_max, hM, hnM, range_check_soft_fst]

/-- C3 witness: `cool_fan_speed` 0–100 rejects 150 with the out-of-range
message and accepts the boundary value 100. -/
theorem numeric_hard_bounds_witness :
    validate_value cool_schema "cool_fan_speed" (.int 150) =
      (false, "Value 150 above maximum 100") ∧
    (validate_value cool_schema "cool_fan_speed" (.int 100)).1 = true := by
  constructor
  · have h := (numeric_hard_bounds cool_schema "cool_fan_speed" cool_fan_info
      (.int 150) (.int 150) (mkRat 0 1) (mkRat 100 1) (by decide)
      (Or.inl (by decide)) (by decide) (by decide) (by decide) (by decide)).2.1
      (by decide)
    exact h.trans (by decide)
  · exact (numeric_hard_bounds cool_schema "cool_fan_speed" cool_fan_info
      (.int 100) (.int 100) (mkRat 0 1) (mkRat 100 1) (by decide)
      (Or.inl (by decide)) (by decide) (by decide) (by decide) (by decide)).2.2
      (Or.inr (by decide))

/-- C4: for a numeric value inside the hard bounds, crossing exactly one
soft bound yields acceptance with the single advisory naming that bound,
and crossing both yields one advisory string with the minimum reported
first. -/
theorem numeric_soft_bounds_advisory (schema : Schema) (key : String)
    (info : SettingInfo) (v w : PyVal)
    (hk : dictGet? schema key = some info)
    (ht : info.type.getD "unknown" = "int" ∨ info.type.getD "unknown" = "float")
    (hc : coerce_numeric (info.type.getD "unknown") v = some w)
    (h1 : below_min info (num_of w) = false)
    (h2 : above_max info (num_of w) = false) :
    (∀ mw, info.minimum_value_warning = some mw → num_of w < mw →
      above_warn info (num_of w) = false →
      validate_value schema key v =
        (true, "Value " ++ py_str w ++ " " ++ ("below recommended " ++ py_num_repr mw))) ∧
    (∀ xw, info.maximum_value_warning = some xw → xw < num_of w →
      below_warn info (num_of w) = false →
      validate_value schema key v =
        (true, "Value " ++ py_str w ++ " " ++ ("above recommended " ++ py_num_repr xw))) ∧
    (∀ mw xw, info.minimum_value_warning = some mw →
      info.maximum_value_warning = some xw →
      num_of w < mw → xw < num_of w →
      validate_value schema key v =
        (true, "Value " ++ py_str w ++ " " ++
          ("below recommended " ++ py_num_repr mw ++ ", " ++
            ("above recommended " ++ py_num_repr xw)))) := by
  rw [validate_value_numeric schema key info v w hk ht hc, range_check_pass info w h1 h2]
  exact ⟨fun mw hmw hlt hnw => range_check_soft_min info w mw hmw hlt hnw,
    fun xw hxw hgt hnw => range_check_soft_max info w xw hxw hgt hnw,
    fun mw xw hmw hxw hlt hgt => range_check_soft_both info w mw xw hmw hxw hlt hgt⟩

/-- C4 witness: 150 against soft maximum 100 is accepted with exactly the
advisory naming the soft maximum. -/
theorem numeric_soft_bounds_advisory_witness :
    validate_value fan_warn_schema "cool_fan_speed" (.int 150) =
      (true, "Value 150 above recommended 100") := by
  have h := (numeric_soft_bounds_advisory fan_warn_schema "cool_fan_speed"
    fan_warn_info (.int 150) (.int 150) (by decide) (Or.inl (by decide))
    (by decide) (by decide) (by decide)).2.1 (mkRat 100 1) (by decide)
    (by decide) (by decide)
  exact h.trans (by decide)

/-- C6: a key absent from the schema is always accepted with an empty
message, whatever the candidate value; validation leaves the value
untouched. -/
theorem unknown_key_accepted (schema : Schema) (k : String) (v : PyVal)
    (hk : dictGet? schema k = none) :
    validate_value schema k v = (true, "") := by
  simp [validate_value, hk]

/-- C6 witness: an unknown custom key with an arbitrary value passes. -/
theorem unknown_key_accepted_witness :
    validate_value [] "my_custom_setting" (.str "whatever") = (true, "") :=
  unknown_key_accepted [] "my_custom_setting" (.str "whatever") rfl

/-- C7: an enum value not among the options is rejected with the
invalid-option message, and that message contains every valid option. -/
theorem enum_invalid_option (schema : Schema) (k : String) (info : SettingInfo)
    (v : PyVal)
    (hk : dictGet? schema k = some info) (ht : info.type = some "enum")
    (hv : enum_mem v info.options = false) :
    validate_value schema k v = (false, invalid_option_msg v info.options) ∧
    ∀ o ∈ info.options,
      str_contains_sub (invalid_option_msg v info.options) (py_repr_str o) := by
  constructor
  · simp [validate_value, hk, ht, hv]
  · intro o ho
    obtain ⟨l, r, hl⟩ := @joinSep_contains ", " (info.options.map py_repr_str)
      (py_repr_str o) (List.mem_map.mpr ⟨o, ho, rfl⟩)
    refine ⟨"Invalid option " ++ py_repr_str (py_str v) ++ ". Valid: " ++ "[" ++ l,
      r ++ "]", ?_⟩
    rw [invalid_option_msg, py_list_repr, hl]
    apply String.ext
    simp [String.data_append, List.append_assoc]

/-- C7 witness: the enum rejection at a concrete schema and value, with
the option "grid" contained in the message. -/
theorem enum_invalid_option_witness :
    validate_value pattern_schema "support_pattern" (.str "zigzag") =
      (false, invalid_option_msg (.str "zigzag") ["grid", "lines"]) ∧
    str_contains_sub (invalid_option_msg (.str "zigzag") ["grid", "lines"])
      (py_repr_str "grid") := by
  have h := enum_invalid_option pattern_schema "support_pattern" pattern_info
    (.str "zigzag") (by decide) rfl (by decide)
  exact ⟨h.1, h.2 "grid" (by decide)⟩

/-- C5 counterexample: with a caller-supplied extruder override map that
mentions a key the partition routed to the global group, the same
validated setting appears both in the global group and in the emitted
extruder group 0, contradicting the "never both" part of the claim. -/
theorem partition_overlap_cex :
    dictHasKey (split_settings (some speed_schema)
      [("speed_print", PyVal.int 50)]).1 "speed_print" = true ∧
    extruder_groups (split_settings (some speed_schema)
        [("speed_print", PyVal.int 50)]).2 [(0, [("speed_print", PyVal.int 50)])] =
      [(0, [("speed_print", PyVal.int 50)])] :=
  ⟨by decide, by decide⟩

/-- C5 (amended): the internal routing is an exact partition — every key
of the validated batch lands in exactly one of `global_only` and
`extruder_only` — per-extruder settings reach merged component group 0 by
default, and a caller-supplied override map is merged over that default
routing, its entries taking per-key precedence while untouched keys keep
their default-routed value; an override entry whose key was routed to the
global group additionally duplicates that key into a component group. -/
theorem partition_amended (md : Option Schema) (gs : List (String × PyVal))
    (es : List (Int × List (String × PyVal)))
    (hnd : (gs.map Prod.fst).Nodup)
    (hes : (es.map Prod.fst).Nodup)
    (hvals : ∀ p s, (p, s) ∈ es → (s.map Prod.fst).Nodup) :
    (∀ k, dictHasKey gs k = true →
      (dictHasKey (split_settings md gs).1 k = true ∧
        dictHasKey (split_settings md gs).2 k = false) ∨
      (dictHasKey (split_settings md gs).1 k = false ∧
        dictHasKey (split_settings md gs).2 k = true)) ∧
    (∀ k, dictHasKey (split_settings md gs).2 k = true →
      ∃ d, dictGet? (merged_extruder (split_settings md gs).2 es) 0 = some d ∧
        dictHasKey d k = true) ∧
    (∀ p s k, (p, s) ∈ es → dictHasKey s k = true →
      ∃ d, dictGet? (merged_extruder (split_settings md gs).2 es) p = some d ∧
        dictGet? d k = dictGet? s k) ∧
    (∀ k, (∀ s, ((0 : Int), s) ∈ es → dictHasKey s k = false) →
      ∃ d, dictGet? (merged_extruder (split_settings md gs).2 es) 0 = some d ∧
        dictGet? d k = dictGet? (split_settings md gs).2 k) := by
  refine ⟨?_, ?_, ?_, ?_⟩
  · intro k hk
    obtain ⟨v, hv⟩ := Option.isSome_iff_exists.mp hk
    by_cases hc : per_extruder_cond md k
    · right
      rw [split_settings_eq md gs hnd]
      simp [dictHasKey, dictGet?_filter _ hnd hv, hc]
    · left
      rw [split_settings_eq md gs hnd]
      simp [dictHasKey, dictGet?_filter _ hnd hv, hc]
  · intro k hk2
    exact merged_fold_mono es [(0, (split_settings md gs).2)] 0 k
      (split_settings md gs).2 (by simp [dictGet?]) hk2
  · intro p s k hmem hk3
    exact merged_fold_override es [(0, (split_settings md gs).2)] p s k hes hmem
      (hvals p s hmem) hk3
  · intro k hnone
    exact merged_fold_untouched es [(0, (split_settings md gs).2)] 0 k
      (split_settings md gs).2 (by simp [dictGet?]) hnone

/-- C5 witness: the amended partition claim instantiated on a per-extruder
setting and a caller override map for extruder 1. -/
theorem partition_amended_witness :
    ((dictHasKey (split_settings (some infill_schema)
        [("infill_sparse_density", PyVal.int 20)]).1 "infill_sparse_density" = true ∧
      dictHasKey (split_settings (some infill_schema)
        [("infill_sparse_density", PyVal.int 20)]).2 "infill_sparse_density" = false) ∨
     (dictHasKey (split_settings (some infill_schema)
        [("infill_sparse_density", PyVal.int 20)]).1 "infill_sparse_density" = false ∧
      dictHasKey (split_settings (some infill_schema)
        [("infill_sparse_density", PyVal.int 20)]).2 "infill_sparse_density" = true)) ∧
    (∃ d, dictGet? (merged_extruder (split_settings (some infill_schema)
        [("infill_sparse_density", PyVal.int 20)]).2
        [(1, [("speed_print", PyVal.int 30)])]) 1 = some d ∧
      dictGet? d "speed_print" = dictGet? [("speed_print", PyVal.int 30)] "speed_print") := by
  have h := partition_amended (some infill_schema)
    [("infill_sparse_density", PyVal.int 20)] [(1, [("speed_print", PyVal.int 30)])]
    (by decide) (by decide)
    (fun p s hps => by
      have h1 := List.mem_singleton.mp hps
      injection h1 with hp hs
      subst hp
      subst hs
      decide)
  exact ⟨h.1 "infill_sparse_density" (by decide),
    h.2.2.1 1 [("speed_print", PyVal.int 30)] "speed_print"
      (List.mem_singleton.mpr rfl) (by decide)⟩

/-- C9: a key absent from the schema is reported not per-extruder, is
always routed to the global group of `build_curaprofile`, and appears in
an emitted extruder group only when the caller's `extruder_settings`
override map itself contains it. -/
theorem unknown_key_global_routing (md : Schema) (gs : List (String × PyVal))
    (es : List (Int × List (String × PyVal))) (k : String)
    (hnd : (gs.map Prod.fst).Nodup)
    (hk : dictGet? md k = none)
    (hmem : dictHasKey gs k = true) :
    is_per_extruder md k = false ∧
    dictHasKey (split_settings (some md) gs).1 k = true ∧
    (∀ p d, (p, d) ∈ extruder_groups (split_settings (some md) gs).2 es →
      dictHasKey d k = true → ∃ s, (p, s) ∈ es ∧ dictHasKey s k = true) := by
  have hpe : is_per_extruder md k = false := by simp [is_per_extruder, hk]
  have hcond : per_extruder_cond (some md) k = false := by
    simp [per_extruder_cond, hpe]
  obtain ⟨v, hv⟩ := Option.isSome_iff_exists.mp hmem
  have heo : dictHasKey (split_settings (some md) gs).2 k = false := by
    rw [split_settings_eq _ gs hnd]
    simp [dictHasKey, dictGet?_filter _ hnd hv, hcond]
  refine ⟨hpe, ?_, ?_⟩
  · rw [split_settings_eq _ gs hnd]
    simp [dictHasKey, dictGet?_filter _ hnd hv, hcond]
  · intro p d hpd hdk
    rw [extruder_groups] at hpd
    by_cases hif : (split_settings (some md) gs).2 = [] ∧ es = []
    · rw [if_pos hif] at hpd
      cases hpd
    · rw [if_neg hif] at hpd
      have hpd' := List.mem_of_mem_filter hpd
      rcases merged_fold_origin es [(0, (split_settings (some md) gs).2)] p d k
        hpd' hdk with ⟨d0, hd0, hd0k⟩ | hes2
      · have h1 := List.mem_singleton.mp hd0
        have hd2 : d0 = (split_settings (some md) gs).2 := congrArg Prod.snd h1
        rw [hd2] at hd0k
        rw [heo] at hd0k
        cases hd0k
      · exact hes2

/-- C9 witness: the unknown-key routing claim at a concrete input. -/
theorem unknown_key_global_routing_witness :
    is_per_extruder [] "custom_key" = false ∧
    dictHasKey (split_settings (some [])
      [("custom_key", PyVal.int 7)]).1 "custom_key" = true ∧
    (∀ p d, (p, d) ∈ extruder_groups (split_settings (some [])
        [("custom_key", PyVal.int 7)]).2 [] →
      dictHasKey d "custom_key" = true →
      ∃ s, (p, s) ∈ ([] : List (Int × List (String × PyVal))) ∧
        dictHasKey s "custom_key" = true) :=
  unknown_key_global_routing [] [("custom_key", PyVal.int 7)] [] "custom_key"
    (by decide) rfl (by decide)

/-- C10: in `build_from_json`, a key of the machine's effective-settings
map that was not already chosen from `_key_settings` gets the Python
truthiness-fallback value `effective_value or value or default_value`, so
a falsy effective value (0, 0.0, False, "") is skipped in favour of the
next fallback, and the key is dropped entirely when the chain yields
`None`. -/
theorem effective_value_truthiness_fallback (base : List (String × PyVal))
    (eff : List (String × EffInfo)) (k : String) (i : EffInfo)
    (hnd : (eff.map Prod.fst).Nodup)
    (hb : dictHasKey base k = false)
    (hmem : (k, i) ∈ eff) :
    dictGet? (add_effective_settings base eff) k =
      pyOr i.effective_value (pyOr i.value i.default_value) ∧
    (pyOr i.effective_value (pyOr i.value i.default_value) = none →
      dictHasKey (add_effective_settings base eff) k = false) ∧
    py_truthy (.int 0) = false ∧ py_truthy (.float (mkRat 0 1)) = false ∧
    py_truthy (.bool false) = false ∧ py_truthy (.str "") = false := by
  have hmain : dictGet? (add_effective_settings base eff) k = choose_effective i :=
    add_eff_main eff base k i hnd hb hmem
  have hassoc : choose_effective i =
      pyOr i.effective_value (pyOr i.value i.default_value) := by
    rw [choose_effective]
    cases hev : i.effective_value with
    | none => rfl
    | some ev => by_cases ht : py_truthy ev <;> simp [pyOr, ht]
  refine ⟨hmain.trans hassoc, ?_, by decide, by decide, by decide, by decide⟩
  intro hnone
  simp [dictHasKey, hmain, hassoc, hnone]

/-- C10 witness: the fallback claim evaluated on `eff_demo`. -/
theorem effective_value_truthiness_fallback_witness :
    dictGet? (add_effective_settings [] eff_demo) "speed_print" = some (PyVal.int 50) ∧
    dictHasKey (add_effective_settings [] eff_demo) "gone_key" = false ∧
    dictGet? (add_effective_settings [] eff_demo) "kept_zero" = some (PyVal.int 0) := by
  have h1 := (effective_value_truthiness_fallback [] eff_demo "speed_print"
    ⟨some (.int 0), some (.int 50), none⟩ (by decide) (by decide) (by decide)).1
  have h2 := (effective_value_truthiness_fallback [] eff_demo "gone_key"
    ⟨some (.bool false), none, none⟩ (by decide) (by decide) (by decide)).2.1
  have h3 := (effective_value_truthiness_fallback [] eff_demo "kept_zero"
    ⟨some (.str ""), some (.int 0), some (.int 0)⟩ (by decide) (by decide) (by decide)).1
  exact ⟨h1.trans (by decide), h2 (by decide), h3.trans (by decide)⟩

theorem cfg_entry_line_ne_values (k v : String) (c : Char) (cs : List Char)
    (hk : k.data = c :: cs) (hc : c ≠ '[') : cfg_entry_line (k, v) ≠ "[values]" := by
  intro he
  have hd := congrArg String.data he
  rw [show ("[values]" : String).data = '[' :: ['v', 'a', 'l', 'u', 'e', 's', ']'] from rfl]
    at hd
  simp only [cfg_entry_line, String.data_append, hk, List.cons_append,
    List.append_assoc] at hd
  injection hd with h1 _
  exact hc h1

theorem cfg_entry_line_ne_blank (kv : String × String) : cfg_entry_line kv ≠ "" := by
  intro he
  have hd := congrArg String.data he
  have h3 : (" = " : String).data = [' ', '=', ' '] := rfl
  simp only [cfg_entry_line, String.data_append, h3,
    show ("" : String).data = [] from rfl, List.append_assoc, List.append_eq_nil] at hd
  exact absurd hd.2.1 (by simp)

/-- C8: for a fixed settings group and header, `generate_inst_cfg` is a
pure function of those arguments: two builder states differing only in
the ambient clock produce byte-identical text, and the `[values]` section
of the emitted lines is exactly the group's entries in insertion order. -/
theorem generate_inst_cfg_deterministic
    (e1 e2 : BuilderEnv) (md : Option Schema) (pn dfn qt : String)
    (settings : List (String × PyVal)) (ie : Bool) (ep : Int)
    (hsv : e1.setting_version = e2.setting_version) (hne : settings ≠ []) :
    generate_inst_cfg e1 md pn dfn qt settings ie ep =
      generate_inst_cfg e2 md pn dfn qt settings ie ep ∧
    values_section_lines
        (config_write_lines
          (generate_inst_cfg_sections e1 md pn dfn qt settings ie ep)) =
      settings.map
        (fun kv => cfg_entry_line (lowerStr kv.1, cfg_format_value md kv.1 kv.2)) := by
  constructor
  · simp [generate_inst_cfg, generate_inst_cfg_sections, hsv]
  · have hgen : ∀ x ∈ cfg_section_lines "general"
        [("version", "4"), ("name", pn), ("definition", dfn)],
        (x != "[values]") = true := by
      intro x hx
      simp only [cfg_section_lines, List.map_cons, List.map_nil, List.cons_append,
        List.nil_append, List.mem_cons, List.not_mem_nil, or_false] at hx
      rcases hx with rfl | rfl | rfl | rfl | rfl
      · decide
      · decide
      · exact bne_iff_ne.mpr (cfg_entry_line_ne_values "name" _ 'n' _ rfl (by decide))
      · exact bne_iff_ne.mpr (cfg_entry_line_ne_values "definition" _ 'd' _ rfl (by decide))
      · decide
    have hmeta : ∀ x ∈ cfg_section_lines "metadata"
        ([("type", "quality_changes"), ("quality_type", qt),
          ("setting_version", toString (setting_version_or_23 e1.setting_version))] ++
          (if ie then [("position", toString ep)] else [])),
        (x != "[values]") = true := by
      intro x hx
      cases ie with
      | true =>
        simp only [if_true, cfg_section_lines, List.map_cons, List.map_nil,
          List.map_append, List.cons_append, List.nil_append, List.append_nil,
          List.mem_cons, List.not_mem_nil, or_false] at hx
        rcases hx with rfl | rfl | rfl | rfl | rfl | rfl
        · decide
        · decide
        · exact bne_iff_ne.mpr
            (cfg_entry_line_ne_values "quality_type" _ 'q' _ rfl (by decide))
        · exact bne_iff_ne.mpr
            (cfg_entry_line_ne_values "setting_version" _ 's' _ rfl (by decide))
        · exact bne_iff_ne.mpr
            (cfg_entry_line_ne_values "position" _ 'p' _ rfl (by decide))
        · decide
      | false =>
        simp only [Bool.false_eq_true, if_false, cfg_section_lines, List.map_cons,
          List.map_nil, List.append_nil, List.cons_append, List.nil_append,
          List.mem_cons, List.not_mem_nil, or_false] at hx
        rcases hx with rfl | rfl | rfl | rfl | rfl
        · decide
        · decide
        · exact bne_iff_ne.mpr
            (cfg_entry_line_ne_values "quality_type" _ 'q' _ rfl (by decide))
        · exact bne_iff_ne.mpr
            (cfg_entry_line_ne_values "setting_version" _ 's' _ rfl (by decide))
        · decide
    simp only [generate_inst_cfg_sections, if_neg hne, config_write_lines,
      List.map_append, List.map_cons, List.map_nil, List.flatten_append,
      List.flatten_cons, List.flatten_nil, List.append_nil, values_section_lines]
    rw [List.append_assoc, dropWhile_app _ _ _ hgen, dropWhile_app _ _ _ hmeta]
    rw [show cfg_section_lines "values"
        (settings.map (fun kv => (lowerStr kv.1, cfg_format_value md kv.1 kv.2))) =
      "[values]" ::
        ((settings.map
          (fun kv => (lowerStr kv.1, cfg_format_value md kv.1 kv.2))).map cfg_entry_line
          ++ [""]) from rfl]
    rw [List.dropWhile_cons]
    simp only [show (("[values]" : String) != "[values]") = false by decide,
      Bool.false_eq_true, if_false, List.drop_succ_cons, List.drop_zero]
    rw [show ([""] : List String) = "" :: [] from rfl]
    rw [takeWhile_app _ _ _ _ ?_ (by decide)]
    · rw [List.map_map]
      rfl
    · intro y hy
      obtain ⟨kv, _, rfl⟩ := List.mem_map.mp hy
      exact bne_iff_ne.mpr (cfg_entry_line_ne_blank kv)

/-- C8 witness: determinism and values-section order at a concrete header
and two-setting group, with two different clock values. -/
theorem generate_inst_cfg_deterministic_witness :
    generate_inst_cfg ⟨some 23, 11⟩ none "My Profile" "fdmprinter" "normal"
        [("Layer_Height", PyVal.float (mkRat 1 5)), ("speed_print", PyVal.int 50)]
        false 0 =
      generate_inst_cfg ⟨some 23, 999⟩ none "My Profile" "fdmprinter" "normal"
        [("Layer_Height", PyVal.float (mkRat 1 5)), ("speed_print", PyVal.int 50)]
        false 0 ∧
    values_section_lines
        (config_write_lines (generate_inst_cfg_sections ⟨some 23, 11⟩ none
          "My Profile" "fdmprinter" "normal"
          [("Layer_Height", PyVal.float (mkRat 1 5)), ("speed_print", PyVal.int 50)]
          false 0)) =
      ["layer_height = 0.2", "speed_print = 50"] := by
  have h := generate_inst_cfg_deterministic ⟨some 23, 11⟩ ⟨some 23, 999⟩ none
    "My Profile" "fdmprinter" "normal"
    [("Layer_Height", PyVal.float (mkRat 1 5)), ("speed_print", PyVal.int 50)]
    false 0 rfl (by decide)
  exact ⟨h.1, h.2.trans (by decide)⟩

end CuraProfileBuilder
